import Mathlib

/-!
The core-concepts page: `App` and `CoreConcepts`.

A shallow embedding of the two components of the page,
`src/App.jsx` and `src/componnets/CoreConcepts.jsx`, and of the part of JSX they
use: element creation from a list of attributes (named attributes and one
spread attribute), with `key` taken out of the attributes.

The data table `CORE_CONCEPTS` comes from `../data`; it is a parameter of the
embedding.  The record type `ConceptItem` is the one the data model describes.
-/

namespace ReactApp

/-! ## JavaScript values and objects -/

/-- A value held by the data table: a string, or `undefined` (what reading a
property that an object does not have gives). -/
inductive JsValue where
  | undefined
  | str (s : String)
  deriving DecidableEq, Repr

/-- An object: its own enumerable properties, in insertion order. -/
abbrev JsObject := List (String × JsValue)

/-- Property read `obj.name`: the value of the first property of that name,
`undefined` when there is none. -/
def readProperty (obj : JsObject) (name : String) : JsValue :=
  match obj.lookup name with
  | some v => v
  | none => JsValue.undefined

/-- Property write `obj[name] = value` on an object literal under construction:
an existing property keeps its place and takes the new value, a new one is
added at the end. -/
def setProperty : JsObject → String → JsValue → JsObject
  | [], name, value => [(name, value)]
  | (n, v) :: rest, name, value =>
    if n = name then (n, value) :: rest else (n, v) :: setProperty rest name value

/-- Spread `{...target, ...source}`: every own property of `source`, in order,
is written to `target`. -/
def objectAssign (target source : JsObject) : JsObject :=
  source.foldl (fun acc p => setProperty acc p.1 p.2) target

/-! ## Elements -/

/-- What an element is an instance of: the fragment `<>`, a host tag such as
`ul` or `main`, or a component referred to by name. -/
inductive ElementType where
  | fragment
  | host (tag : String)
  | component (name : String)
  deriving DecidableEq, Repr

/-- An element: type, key (`none` is React's null key), props other than
children, and children. -/
inductive Node where
  | element (type : ElementType) (key : Option String) (props : JsObject)
      (children : List Node)

/-- The type of an element. -/
def Node.type : Node → ElementType
  | .element t _ _ _ => t

/-- The key of an element. -/
def Node.key : Node → Option String
  | .element _ k _ _ => k

/-- The props of an element, children apart. -/
def Node.props : Node → JsObject
  | .element _ _ p _ => p

/-- The children of an element. -/
def Node.children : Node → List Node
  | .element _ _ _ c => c

/-- One attribute of a JSX tag: `name={value}` or `{...obj}`. -/
inductive JsxAttribute where
  | named (name : String) (value : JsValue)
  | spread (obj : JsObject)

/-- Attributes are evaluated left to right into one config object; a later
attribute overrides an earlier one of the same name. -/
def applyAttribute (config : JsObject) : JsxAttribute → JsObject
  | .named name value => setProperty config name value
  | .spread obj => objectAssign config obj

/-- The key of the element: the config's `key` as a string, null when the
config has none or it is `undefined`. -/
def elementKey (config : JsObject) : Option String :=
  match readProperty config "key" with
  | .str s => some s
  | .undefined => none

/-- Element creation for a JSX tag, as `React.createElement` does on the config
object that the attributes evaluate to.  `key` is not a prop: it is taken out of
the config and becomes the element's key.  (No attribute or record field of this
program is named `ref` or `children`, which are left unmodelled.) -/
def createElement (type : ElementType) (attributes : List JsxAttribute)
    (children : List Node) : Node :=
  let config := attributes.foldl applyAttribute []
  .element type (elementKey config) (config.filter (fun p => p.1 != "key")) children

/-! ## `CoreConcepts.jsx` -/

/-- The callback of line 9 to 11:
`(conceptItem) => <CoreConcept key={conceptItem.title} {...conceptItem} />`. -/
def conceptCard (conceptItem : JsObject) : Node :=
  createElement (.component "CoreConcept")
    [.named "key" (readProperty conceptItem "title"), .spread conceptItem] []

/-- The component `CoreConcepts`, with the imported table as a parameter. -/
def CoreConcepts (CORE_CONCEPTS : List JsObject) : Node :=
  createElement (.component "Section")
    [.named "title" (.str "Core Concepts"), .named "id" (.str "core-concepts")]
    [createElement (.host "ul") [] (CORE_CONCEPTS.map conceptCard)]

/-! ## `App.jsx` -/

/-- The component `App`.  The function declares no parameter, so the props it
is called with are not read. -/
def App (_props : JsObject) : Node :=
  createElement .fragment []
    [createElement (.component "Header") [] [],
     createElement (.host "main") []
       [createElement (.component "CoreConcepts") [] [],
        createElement (.component "Examples") [] []]]

/-! ## The data model -/

/-- Modelled from the spec: the record type of the data table, which lives in
`../data`.  A concept item has a title and a description, both strings, and
optionally an icon (also met under the name image) and an id. -/
structure ConceptItem where
  title : String
  description : String
  icon : Option String
  image : Option String
  id : Option String
  deriving DecidableEq, Repr

/-- The property of an optional field: present with its value, or absent. -/
def optionalProperty (name : String) : Option String → JsObject
  | some v => [(name, JsValue.str v)]
  | none => []

/-- The object a concept item is at run time: one property per field the
record has. -/
def ConceptItem.toObject (c : ConceptItem) : JsObject :=
  [("title", JsValue.str c.title), ("description", JsValue.str c.description)]
    ++ optionalProperty "icon" c.icon ++ optionalProperty "image" c.image
    ++ optionalProperty "id" c.id

/-! ## Reading a rendered tree -/

mutual
/-- The elements of a tree in document order: an element, then its children's
trees from first to last. -/
def Node.preorder : Node → List Node
  | .element t k p c => .element t k p c :: preorderAll c
/-- The elements of a list of trees in document order. -/
def preorderAll : List Node → List Node
  | [] => []
  | n :: ns => n.preorder ++ preorderAll ns
end

/-- The elements of a tree that are instances of the named component, in
document order. -/
def instancesOf (name : String) (tree : Node) : List Node :=
  tree.preorder.filter (fun n => n.type = ElementType.component name)

/-- The component elements of a tree, in document order. -/
def componentsOf (tree : Node) : List ElementType :=
  (tree.preorder.map Node.type).filter
    (fun t => match t with
      | .component _ => true
      | _ => false)

/-- The CoreConcept cards of the tree that `CoreConcepts` returns for a list of
concept items, in document order. -/
def renderedCards (items : List ConceptItem) : List Node :=
  instancesOf "CoreConcept" (CoreConcepts (items.map ConceptItem.toObject))

/-! ## Rendering with the data table as explicit state -/

/-- The state a render can reach: the data table. -/
abbrev Table := List JsObject

/-- Read `conceptItem.name`, where `conceptItem` is the record at index `k`. -/
def readPropertyAt (k : Nat) (name : String) (table : Table) : JsValue × Table :=
  (readProperty (table.getD k []) name, table)

/-- Enumerate the own properties of the record at index `k`, as the spread
`{...conceptItem}` does. -/
def ownPropertiesAt (k : Nat) (table : Table) : JsObject × Table :=
  (table.getD k [], table)

/-- The callback of line 9 to 11 applied to the record at index `k`. -/
def conceptCardSt (k : Nat) (table : Table) : Node × Table :=
  let (title, table1) := readPropertyAt k "title" table
  let (fields, table2) := ownPropertiesAt k table1
  (createElement (.component "CoreConcept") [.named "key" title, .spread fields] [],
    table2)

/-- The loop of `Array.prototype.map`: `remaining` more indices from `k` on; an
index the table no longer has is skipped. -/
def mapSt (callback : Nat → Table → Node × Table) :
    Nat → Nat → Table → List Node × Table
  | 0, _, table => ([], table)
  | remaining + 1, k, table =>
    if k < table.length then
      let (card, table1) := callback k table
      let (rest, table2) := mapSt callback remaining (k + 1) table1
      (card :: rest, table2)
    else
      mapSt callback remaining (k + 1) table

/-- The component `CoreConcepts` as a state transformer on the data table: the
length is read once, then the callback runs on each index. -/
def CoreConceptsSt (table : Table) : Node × Table :=
  let (cards, table1) := mapSt conceptCardSt table.length 0 table
  (createElement (.component "Section")
      [.named "title" (.str "Core Concepts"), .named "id" (.str "core-concepts")]
      [createElement (.host "ul") [] cards],
    table1)

/-! ## Objects and element creation: lemmas -/

theorem setProperty_of_not_mem (o : JsObject) (name : String) (v : JsValue)
    (h : name ∉ o.map Prod.fst) : setProperty o name v = o ++ [(name, v)] := by
  induction o with
  | nil => rfl
  | cons p rest ih =>
    obtain ⟨n, w⟩ := p
    simp only [List.map_cons, List.mem_cons, not_or] at h
    have hne : ¬ n = name := fun e => h.1 e.symm
    simp [setProperty, hne, ih h.2]

theorem objectAssign_of_disjoint (source target : JsObject)
    (hnodup : (source.map Prod.fst).Nodup)
    (hdisj : ∀ n ∈ source.map Prod.fst, n ∉ target.map Prod.fst) :
    objectAssign target source = target ++ source := by
  induction source generalizing target with
  | nil => simp [objectAssign]
  | cons p rest ih =>
    obtain ⟨n, w⟩ := p
    simp only [List.map_cons, List.nodup_cons] at hnodup
    have hn : n ∉ target.map Prod.fst := hdisj n (by simp)
    have step : objectAssign target ((n, w) :: rest)
        = objectAssign (setProperty target n w) rest := by
      simp [objectAssign]
    rw [step, setProperty_of_not_mem target n w hn, ih _ hnodup.2]
    · simp
    · intro m hm
      simp only [List.map_append, List.map_cons, List.map_nil, List.mem_append,
        List.mem_singleton, not_or]
      refine ⟨hdisj m (by simp [hm]), ?_⟩
      rintro rfl
      exact hnodup.1 hm

theorem filter_key_of_not_mem (o : JsObject) (h : "key" ∉ o.map Prod.fst) :
    o.filter (fun p => p.1 != "key") = o := by
  rw [List.filter_eq_self]
  intro p hp
  have : p.1 ≠ "key" := fun e => h (e ▸ List.mem_map_of_mem Prod.fst hp)
  simpa using this

theorem conceptCard_of_plain (o : JsObject) (hkey : "key" ∉ o.map Prod.fst)
    (hnodup : (o.map Prod.fst).Nodup) :
    conceptCard o
      = Node.element (.component "CoreConcept")
          (elementKey [("key", readProperty o "title")]) o [] := by
  have hconfig : objectAssign [("key", readProperty o "title")] o
      = [("key", readProperty o "title")] ++ o := by
    apply objectAssign_of_disjoint _ _ hnodup
    intro n hn
    simp only [List.map_cons, List.map_nil, List.mem_singleton]
    rintro rfl
    exact hkey hn
  simp only [conceptCard, createElement, List.foldl_cons, List.foldl_nil, applyAttribute,
    setProperty, hconfig]
  have hfilter : List.filter (fun p => p.1 != "key") ([("key", readProperty o "title")] ++ o)
      = o := by
    rw [List.filter_append, filter_key_of_not_mem o hkey]
    simp
  rw [hfilter]
  congr 1

theorem toObject_names (c : ConceptItem) :
    "key" ∉ c.toObject.map Prod.fst ∧ (c.toObject.map Prod.fst).Nodup
      ∧ readProperty c.toObject "title" = JsValue.str c.title
      ∧ readProperty c.toObject "description" = JsValue.str c.description := by
  obtain ⟨t, d, icon, image, id⟩ := c
  cases icon <;> cases image <;> cases id <;>
    simp [ConceptItem.toObject, optionalProperty, readProperty, List.lookup]

theorem conceptCard_toObject (c : ConceptItem) :
    conceptCard c.toObject
      = Node.element (.component "CoreConcept") (some c.title) c.toObject [] := by
  obtain ⟨hkey, hnodup, htitle, _⟩ := toObject_names c
  rw [conceptCard_of_plain _ hkey hnodup, htitle]
  rfl


/-! ## Trees and the state-passing render: lemmas -/

theorem preorderAll_of_leaves (ns : List Node) (h : ∀ n ∈ ns, n.children = []) :
    preorderAll ns = ns := by
  induction ns with
  | nil => rfl
  | cons n rest ih =>
    have hn : n.children = [] := h n (by simp)
    cases n with
    | element t k p c =>
      simp only [Node.children] at hn
      subst hn
      simp only [preorderAll, Node.preorder, List.cons_append, List.nil_append]
      rw [ih (fun m hm => h m (by simp [hm]))]

theorem conceptCard_type (o : JsObject) :
    (conceptCard o).type = ElementType.component "CoreConcept" := rfl

theorem conceptCard_children (o : JsObject) : (conceptCard o).children = [] := rfl

theorem CoreConcepts_eq (table : List JsObject) :
    CoreConcepts table
      = Node.element (.component "Section") none
          [("title", JsValue.str "Core Concepts"), ("id", JsValue.str "core-concepts")]
          [Node.element (.host "ul") none [] (table.map conceptCard)] := by
  rfl

theorem preorder_CoreConcepts (table : List JsObject) :
    (CoreConcepts table).preorder
      = CoreConcepts table
          :: Node.element (.host "ul") none [] (table.map conceptCard)
          :: table.map conceptCard := by
  have hleaves : preorderAll (table.map conceptCard) = table.map conceptCard :=
    preorderAll_of_leaves _ (by
      intro n hn
      obtain ⟨o, _, rfl⟩ := List.mem_map.1 hn
      exact conceptCard_children o)
  rw [CoreConcepts_eq]
  simp only [Node.preorder, preorderAll, hleaves, List.append_nil]

theorem instancesOf_CoreConcepts (table : List JsObject) :
    instancesOf "CoreConcept" (CoreConcepts table) = table.map conceptCard := by
  unfold instancesOf
  rw [preorder_CoreConcepts, CoreConcepts_eq]
  simp only [List.filter_cons, Node.type]
  simp only [ElementType.component.injEq, reduceCtorEq, decide_False]
  simp
  intro o _
  exact conceptCard_type o

theorem mapSt_conceptCardSt (table : Table) :
    ∀ (remaining k : Nat), k + remaining ≤ table.length →
      mapSt conceptCardSt remaining k table
        = (((table.drop k).take remaining).map conceptCard, table) := by
  intro remaining
  induction remaining with
  | zero => intro k _; simp [mapSt]
  | succ n ih =>
    intro k hk
    have hlt : k < table.length := by omega
    have hcard : conceptCardSt k table = (conceptCard (table.getD k []), table) := rfl
    have hdrop : table.drop k = table.getD k [] :: table.drop (k + 1) := by
      rw [List.getD_eq_getElem _ _ hlt]
      exact List.drop_eq_getElem_cons hlt
    simp only [mapSt, hlt, if_true, hcard, ih (k + 1) (by omega)]
    rw [hdrop]
    simp

theorem CoreConceptsSt_eq (table : Table) :
    CoreConceptsSt table = (CoreConcepts table, table) := by
  have h := mapSt_conceptCardSt table table.length 0 (by omega)
  simp only [List.drop_zero, List.take_length] at h
  simp only [CoreConceptsSt, h]
  rfl


/-! ## The cards of `CoreConcepts` -/

theorem renderedCards_eq (items : List ConceptItem) :
    renderedCards items
      = items.map (fun c =>
          Node.element (.component "CoreConcept") (some c.title) c.toObject []) := by
  unfold renderedCards
  rw [instancesOf_CoreConcepts, List.map_map]
  apply List.map_congr_left
  intro c _
  exact conceptCard_toObject c

/-- C1: for every list of N concept items, the CoreConcept cards in the tree that
CoreConcepts returns are the input list mapped in order by the card callback:
there are exactly N of them, and the card at index i is the one built from the
record at index i (none dropped, duplicated or reordered). -/
theorem coreConcepts_cards_in_order (items : List ConceptItem) :
    renderedCards items = items.map (fun c => conceptCard c.toObject)
      ∧ (renderedCards items).length = items.length
      ∧ ∀ i : Nat,
          (renderedCards items)[i]? = (items[i]?).map (fun c => conceptCard c.toObject) := by
  have h : renderedCards items = items.map (fun c => conceptCard c.toObject) := by
    unfold renderedCards
    rw [instancesOf_CoreConcepts, List.map_map]
    rfl
  refine ⟨h, ?_, ?_⟩
  · rw [h, List.length_map]
  · intro i
    rw [h, List.getElem?_map]

/-- The example of C1: for the list A, B the output is two cards, A then B, each
with its record's text. -/
theorem coreConcepts_cards_in_order_example :
    renderedCards [⟨"A", "d1", none, none, none⟩, ⟨"B", "d2", none, none, none⟩]
      = [Node.element (.component "CoreConcept") (some "A")
            [("title", JsValue.str "A"), ("description", JsValue.str "d1")] [],
         Node.element (.component "CoreConcept") (some "B")
            [("title", JsValue.str "B"), ("description", JsValue.str "d2")] []] :=
  (coreConcepts_cards_in_order [⟨"A", "d1", none, none, none⟩, ⟨"B", "d2", none, none, none⟩]).1.trans rfl

/-- C2: for every list of concept items and every index i, the title and the
description that the card at index i receives are exactly the title and the
description of the record at index i. -/
theorem card_title_and_description (items : List ConceptItem) (i : Nat) :
    ((renderedCards items)[i]?).map
        (fun card => (readProperty card.props "title", readProperty card.props "description"))
      = (items[i]?).map (fun c => (JsValue.str c.title, JsValue.str c.description)) := by
  rw [renderedCards_eq, List.getElem?_map, Option.map_map]
  cases items[i]? with
  | none => rfl
  | some c =>
    obtain ⟨_, _, htitle, hdescription⟩ := toObject_names c
    show some (readProperty c.toObject "title", readProperty c.toObject "description")
      = some (JsValue.str c.title, JsValue.str c.description)
    rw [htitle, hdescription]

/-- C3: for every list of concept items and every index i, the key of the card
at index i is the title of the record at index i, whatever the index and the
other fields are. -/
theorem card_key_is_title (items : List ConceptItem) (i : Nat) :
    ((renderedCards items)[i]?).map Node.key = (items[i]?).map (fun c => some c.title) := by
  rw [renderedCards_eq, List.getElem?_map, Option.map_map]
  rfl

/-- C9: for every list of concept items and every index i, the props of the card
at index i are exactly the fields of the record at index i, each with its value,
and the card is given no children. -/
theorem card_props_are_record_fields (items : List ConceptItem) (i : Nat) :
    ((renderedCards items)[i]?).map (fun card => (card.props, card.children))
      = (items[i]?).map (fun c => (c.toObject, [])) := by
  rw [renderedCards_eq, List.getElem?_map, Option.map_map]
  rfl


/-! ## Keys, the section, `App`, and the data table -/

theorem renderedCards_keys (items : List ConceptItem) :
    (renderedCards items).map Node.key = (items.map ConceptItem.title).map some := by
  rw [renderedCards_eq, List.map_map, List.map_map]
  rfl

/-- C7: for every list of concept items, pairwise distinct titles give pairwise
distinct card keys; two records at different indices with the same title give
two cards with the same key; so the keys are pairwise distinct exactly when the
titles are. -/
theorem card_keys_distinct_iff_titles_distinct (items : List ConceptItem) :
    ((items.map ConceptItem.title).Nodup → ((renderedCards items).map Node.key).Nodup)
      ∧ (∀ i j : Nat, i ≠ j → i < items.length → j < items.length →
          (items.map ConceptItem.title)[i]? = (items.map ConceptItem.title)[j]? →
          ((renderedCards items).map Node.key)[i]? = ((renderedCards items).map Node.key)[j]?)
      ∧ (((renderedCards items).map Node.key).Nodup ↔ (items.map ConceptItem.title).Nodup) := by
  have hiff : ((renderedCards items).map Node.key).Nodup
      ↔ (items.map ConceptItem.title).Nodup := by
    rw [renderedCards_keys]
    exact List.nodup_map_iff (Option.some_injective String)
  refine ⟨hiff.2, ?_, hiff⟩
  intro i j _ _ _ h
  rw [renderedCards_keys, List.getElem?_map, h, ← List.getElem?_map]

/-- C7 at concrete lists: the titles A, B are distinct and so are the two keys;
in the list A, A the records at index 0 and 1 share their title and the two
cards share their key. -/
theorem card_keys_distinct_iff_titles_distinct_witness :
    ((renderedCards [⟨"A", "d1", none, none, none⟩, ⟨"B", "d2", none, none, none⟩]).map Node.key).Nodup
      ∧ ((renderedCards [⟨"A", "d1", none, none, none⟩, ⟨"A", "d2", some "i", none, none⟩]).map
            Node.key)[0]?
          = ((renderedCards [⟨"A", "d1", none, none, none⟩, ⟨"A", "d2", some "i", none, none⟩]).map
            Node.key)[1]? :=
  ⟨(card_keys_distinct_iff_titles_distinct
      [⟨"A", "d1", none, none, none⟩, ⟨"B", "d2", none, none, none⟩]).1 (by decide),
   (card_keys_distinct_iff_titles_distinct
      [⟨"A", "d1", none, none, none⟩, ⟨"A", "d2", some "i", none, none⟩]).2.1 0 1
        (by decide) (by decide) (by decide) rfl⟩

/-- C8: for every list of concept items, the empty list included, CoreConcepts
returns one Section element with title "Core Concepts" and id "core-concepts",
whose only child is one ul element, whose children are the cards built from the
records of the list, one per record in list order, and nothing else; that
Section is the only one in the tree; for the empty list the Section and the ul
are there and the ul has no children. -/
theorem coreConcepts_section_and_list (items : List ConceptItem) :
    CoreConcepts (items.map ConceptItem.toObject)
        = Node.element (.component "Section") none
            [("title", JsValue.str "Core Concepts"), ("id", JsValue.str "core-concepts")]
            [Node.element (.host "ul") none []
              (items.map (fun c => conceptCard c.toObject))]
      ∧ instancesOf "Section" (CoreConcepts (items.map ConceptItem.toObject))
          = [CoreConcepts (items.map ConceptItem.toObject)]
      ∧ CoreConcepts ([].map ConceptItem.toObject)
          = Node.element (.component "Section") none
              [("title", JsValue.str "Core Concepts"), ("id", JsValue.str "core-concepts")]
              [Node.element (.host "ul") none [] []] := by
  refine ⟨?_, ?_, rfl⟩
  · rw [CoreConcepts_eq, List.map_map]
    rfl
  · unfold instancesOf
    rw [preorder_CoreConcepts]
    have hcards : List.filter (fun n => decide (n.type = ElementType.component "Section"))
        (List.map conceptCard (items.map ConceptItem.toObject)) = [] := by
      rw [List.filter_eq_nil_iff]
      intro n hn
      obtain ⟨o, _, rfl⟩ := List.mem_map.1 hn
      rw [conceptCard_type]
      decide
    rw [List.filter_cons_of_pos (by rfl),
      List.filter_cons_of_neg (by simp [Node.type]), hcards]

/-- C4: App returns one tree whose component elements, in document order, are
Header, then CoreConcepts, then Examples, each exactly once. -/
theorem app_components_in_order (props : JsObject) :
    componentsOf (App props)
        = [ElementType.component "Header", ElementType.component "CoreConcepts",
           ElementType.component "Examples"]
      ∧ (instancesOf "Header" (App props)).length = 1
      ∧ (instancesOf "CoreConcepts" (App props)).length = 1
      ∧ (instancesOf "Examples" (App props)).length = 1 :=
  ⟨rfl, rfl, rfl, rfl⟩

/-- C10: the tree App returns is a fragment with two children, Header then main;
main has two children, CoreConcepts then Examples; Header is a child of the
fragment, not of main; each component element has no props and no children; and
the tree is the same whatever props App is called with. -/
theorem app_tree_shape (props : JsObject) :
    App props
        = Node.element .fragment none []
            [Node.element (.component "Header") none [] [],
             Node.element (.host "main") none []
               [Node.element (.component "CoreConcepts") none [] [],
                Node.element (.component "Examples") none [] []]]
      ∧ ∀ other : JsObject, App other = App props :=
  ⟨rfl, fun _ => rfl⟩

/-- C5: rendering is deterministic.  For every data table, a second evaluation of
CoreConcepts, run on the table the first one leaves, returns the same tree as
the first; that tree is the value of a function of the table alone; and any two
evaluations of App return the same tree. -/
theorem render_is_deterministic (table : Table) (props props2 : JsObject) :
    (CoreConceptsSt (CoreConceptsSt table).2).1 = (CoreConceptsSt table).1
      ∧ (CoreConceptsSt table).1 = CoreConcepts table
      ∧ App props = App props2 := by
  have h := CoreConceptsSt_eq table
  refine ⟨?_, by rw [h], rfl⟩
  rw [h, CoreConceptsSt_eq]

/-- C6: rendering does not change the data table.  For every table, the table
that CoreConcepts leaves equals the one it was given: same length, same record
at every index; and the tree it returns is the one of the pure component. -/
theorem render_leaves_table_unchanged (table : Table) :
    (CoreConceptsSt table).2 = table
      ∧ (CoreConceptsSt table).2.length = table.length
      ∧ (∀ i : Nat, (CoreConceptsSt table).2[i]? = table[i]?)
      ∧ (CoreConceptsSt table).1 = CoreConcepts table := by
  have h := CoreConceptsSt_eq table
  exact ⟨by rw [h], by rw [h], fun _ => by rw [h], by rw [h]⟩


end ReactApp
